import Mathlib

/-!
# http-client: configuration defaulting, validation and redacting log interceptors

A shallow embedding of `utils.go`, `config.go` and `model.go`.

* Go maps are listed as their entries (`GoMap`); a map that Go can hold lists
  every key once (`GoMap.WF`), and `range` may visit the entries in any order.
* `time.Duration` is a count of nanoseconds; the code only compares such values,
  so they are unbounded integers here.
* A Go panic is the `Except.error` branch of a result.
* A Go map is a reference: a callee that writes into it changes the caller's
  map. Functions that write into an argument return the argument's final state
  next to their result.
-/

namespace HttpClient

/-! ## Go values -/

/-- A Go `map[string]V`, listed as its entries. -/
abbrev GoMap (V : Type) := List (String × V)

namespace GoMap

/-- Keys of the map in listing order. -/
def keys {V : Type} (m : GoMap V) : List String := m.map Prod.fst

/-- Well-formedness of a listing: every key is listed once. -/
def WF {V : Type} (m : GoMap V) : Prop := (keys m).Nodup

/-- Go `v, ok := m[k]`: the value stored under `k`, when there is one. -/
def index {V : Type} : GoMap V → String → Option V
  | [], _ => none
  | (k1, v) :: rest, k => if k1 = k then some v else index rest k

/-- Go `m[k] = v`: overwrite the entry of `k`, or add one. -/
def assign {V : Type} : GoMap V → String → V → GoMap V
  | [], k, v => [(k, v)]
  | (k1, v1) :: rest, k, v => if k1 = k then (k1, v) :: rest else (k1, v1) :: assign rest k v

end GoMap

/-- A Go `interface{}` value, by dynamic type. `float64` carries its raw bits and
`struct` the type name with its fields; the code never looks inside either.
`mapSI` is a `map[string]interface{}` that has been made, `nilMapSI` the nil map
of that type inside an interface (which is not the nil interface `nil`). -/
inductive Any where
  | nil
  | bool (b : Bool)
  | int (n : Int)
  | float64 (bits : Nat)
  | str (s : String)
  | bytes (b : List Nat)
  | slice (xs : List Any)
  | mapSI (m : List (String × Any))
  | nilMapSI
  | struct (typeName : String) (fields : List (String × Any))

/-- The value a panic carries. -/
inductive Panic where
  | typeAssertion (wanted : String)
  | nilMapAssign
  deriving DecidableEq, Repr

/-! ## utils.go -/

/-- The constant `ofuscation`. -/
def ofuscation : String := "XXX"

/-- The constant `comma`. -/
def comma : String := ","

/-- Go `strings.Join(elems, sep)`. -/
def Join (elems : List String) (sep : String) : String := sep.intercalate elems

/-- Go `ArrToMap(input)`: every element becomes a key holding `0`. -/
def ArrToMap (input : List String) : GoMap Any :=
  input.foldl (fun output v => GoMap.assign output v (Any.int 0)) []

/-- The loop body of `ofuscate`: one entry of `input` written into `output`. -/
def ofuscateStep (params : GoMap Any) (output : GoMap String)
    (entry : String × List String) : GoMap String :=
  match GoMap.index params entry.1 with
  | some _ => GoMap.assign output entry.1 ofuscation
  | none => GoMap.assign output entry.1 (Join entry.2 ",")

/-- Go `ofuscate(params)(input)`; `input` lists the entries in the order `range`
visits them. -/
def ofuscate (params : GoMap Any) (input : GoMap (List String)) : GoMap String :=
  input.foldl (ofuscateStep params) []

/-- The loop of `ofuscateBody` over a nil map. A nil map reads as the empty map
and stays nil; a call of `DoOfuscate` that would leave an entry in it is a write
into a nil map, which panics. -/
def ofuscateNilMap (doOfuscate : GoMap Any → String → GoMap Any) :
    List String → Except Panic Unit
  | [] => Except.ok ()
  | param :: rest =>
    match doOfuscate [] param with
    | [] => ofuscateNilMap doOfuscate rest
    | _ :: _ => Except.error Panic.nilMapAssign

/-- Go `ofuscateBody(params)(input)`, with the external `DoOfuscate` as the
parameter `doOfuscate` (the map after the call, given the map before it and the
selector). The result pairs the final state of `input` with the returned map
(`none` is a nil map); the returned map is the very map `input` holds. -/
def ofuscateBody (doOfuscate : GoMap Any → String → GoMap Any) (params : List String)
    (input : Any) : Except Panic (Any × Option (GoMap Any)) :=
  match input with
  | Any.nil => Except.ok (Any.nil, none)
  | Any.mapSI m =>
    let m1 := params.foldl doOfuscate m
    Except.ok (Any.mapSI m1, some m1)
  | Any.nilMapSI =>
    match ofuscateNilMap doOfuscate params with
    | Except.error p => Except.error p
    | Except.ok _ => Except.ok (Any.nilMapSI, none)
  | _ => Except.error (Panic.typeAssertion "map[string]interface \x7b\x7d")

/-- Go `CheckValueInRange(min, max, bydefault)(input)`. -/
def CheckValueInRange (min max bydefault : Int) (input : Int) : Int :=
  if input < min ∨ input > max then bydefault else input

/-! ## The external `DoOfuscate` -/

/-- Modelled from the spec: the segments of a selector, "a `.`-separated path".
The selector is split at every `.`; `cur` holds the characters of the segment
being read, last one first. -/
def splitDots : List Char → List Char → List String
  | [], cur => [String.mk cur.reverse]
  | c :: rest, cur =>
    if c = Char.ofNat 46 then String.mk cur.reverse :: splitDots rest []
    else splitDots rest (c :: cur)

mutual
/-- Modelled from the spec: the walk of `DoOfuscate` below a value, "a path
into nested mappings/sequences". A mapping resolves the first segment, a
sequence hands the whole path to each of its elements, and any other value is
left as it is (the selector does not resolve there). -/
def redactAt : Any → List String → Any
  | Any.mapSI m, seg :: more => Any.mapSI (redactFields m seg more)
  | Any.slice xs, path => Any.slice (redactElems xs path)
  | v, _ => v
/-- Modelled from the spec: the walk of `DoOfuscate` over the entries of a
mapping. The entry of `seg` gets the marker when `seg` is the last segment and
is descended into otherwise; the other entries are kept. -/
def redactFields : List (String × Any) → String → List String → List (String × Any)
  | [], _, _ => []
  | (k, v) :: rest, seg, more =>
    (if k = seg then (k, if more = [] then Any.str ofuscation else redactAt v more)
     else (k, v)) :: redactFields rest seg more
/-- Modelled from the spec: the walk of `DoOfuscate` over the elements of a
sequence. -/
def redactElems : List Any → List String → List Any
  | [], _ => []
  | x :: rest, path => redactAt x path :: redactElems rest path
end

/-- Modelled from the spec: `DoOfuscate` of the package ofuscate-struct, which
is not among the source files. The spec (4.4): the redactor "locates the field by
selector (a key name, or a `.`-separated path into nested mappings/sequences)
within `input` and replaces the located value in place with the redaction
marker; if the selector does not resolve to an existing location, it is a silent
no-op for that selector". The result is the map after the call. The source
discards what `DoOfuscate` returns, so the call acts on the map it is given. -/
def DoOfuscate (m : GoMap Any) (param : String) : GoMap Any :=
  match splitDots param.data [] with
  | [] => m
  | seg :: more => redactFields m seg more

/-! ## model.go -/

/-- The struct `Retry`. -/
structure Retry where
  Count : Int
  WaitTime : Int
  MaxWaitTime : Int
  deriving DecidableEq, Repr

/-- The struct `Ofuscate`. -/
structure Ofuscate where
  QueryParams : List String
  Headers : List String
  Request : List String
  Response : List String
  deriving DecidableEq, Repr

/-- The struct `Config`; `LogLevel` is a `zapcore.Level`. -/
structure Config where
  Integration : String
  Host : String
  Timeout : Int
  Retry : Retry
  LogLevel : Int
  Ofuscate : Ofuscate
  deriving DecidableEq, Repr

/-- The zero value of `Config`. -/
def Config.zero : Config :=
  { Integration := "", Host := "", Timeout := 0,
    Retry := { Count := 0, WaitTime := 0, MaxWaitTime := 0 },
    LogLevel := 0,
    Ofuscate := { QueryParams := [], Headers := [], Request := [], Response := [] } }

/-! ## config.go: constants -/

/-- Go `time.Millisecond`, in nanoseconds. -/
def Millisecond : Int := 1000000

/-- Go `time.Second`, in nanoseconds. -/
def Second : Int := 1000 * Millisecond

def defaultTimeout : Int := 10 * Second
def minTimeout : Int := 5 * Second
def maxTimeout : Int := 60 * Second

def defaultRetryCount : Int := 3
def minRetryCount : Int := 0
def maxRetryCount : Int := 5

def defaultRetryWaitTime : Int := 1 * Second
def minRetryWaitTime : Int := 100 * Millisecond
def maxRetryWaitTime : Int := 5 * Second

def defaultRetryMaxWaitTime : Int := 2 * Second
def minRetryMaxWaitTime : Int := 1 * Second
def maxRetryMaxWaitTime : Int := 10 * Second

/-- The level `zapcore.DebugLevel`. -/
def DebugLevel : Int := -1

/-- The level `zapcore.InfoLevel`. -/
def InfoLevel : Int := 0

/-- The constant `defaultLogLevel`. -/
def defaultLogLevel : Int := InfoLevel

/-- Go `l.Enabled(lvl)` of `zapcore.Level`: `lvl >= l`. -/
def LevelEnabled (l lvl : Int) : Bool := decide (lvl ≥ l)

def checkTimeout : Int → Int := CheckValueInRange minTimeout maxTimeout defaultTimeout
def checkRetryCount : Int → Int :=
  CheckValueInRange minRetryCount maxRetryCount defaultRetryCount
def checkRetryWaitTime : Int → Int :=
  CheckValueInRange minRetryWaitTime maxRetryWaitTime defaultRetryWaitTime
def checkRetryMaxWaitTime : Int → Int :=
  CheckValueInRange minRetryMaxWaitTime maxRetryMaxWaitTime defaultRetryMaxWaitTime

/-- The errors a configuration can be refused with; `decode` is an error of the
JSON decoder. -/
inductive Error where
  | ErrHostNeeded
  | ErrIntegrationNeeded
  | decode (msg : String)
  deriving DecidableEq, Repr

/-! ## config.go: validation and defaulting -/

/-- Go `unicode.IsSpace`. -/
def isSpace (c : Char) : Bool :=
  let n := c.toNat
  (9 ≤ n && n ≤ 13) || n = 32 || n = 133 || n = 160 || n = 5760 ||
  (8192 ≤ n && n ≤ 8202) || n = 8232 || n = 8233 || n = 8239 || n = 8287 || n = 12288

/-- Go `strings.TrimSpace`: drop the leading and the trailing white space. -/
def TrimSpace (s : String) : String :=
  String.mk ((s.data.dropWhile isSpace).reverse.dropWhile isSpace).reverse

namespace Config

/-- Go `(*Config).Check`; `none` is the nil error. -/
def Check (c : Config) : Option Error :=
  if TrimSpace c.Host = "" then some Error.ErrHostNeeded
  else if TrimSpace c.Integration = "" then some Error.ErrIntegrationNeeded
  else none

def SetHost (c : Config) (host : String) : Config := { c with Host := host }

def SetTimeout (c : Config) (timeout : Int) : Config := { c with Timeout := timeout }

def SetDefaultTimeout (c : Config) : Config := { c with Timeout := checkTimeout c.Timeout }

def SetRetryCount (c : Config) (retryCount : Int) : Config :=
  { c with Retry := { c.Retry with Count := retryCount } }

def SetDefaultRetryCount (c : Config) : Config :=
  { c with Retry := { c.Retry with Count := checkRetryCount c.Retry.Count } }

def SetRetryWaitTime (c : Config) (retryWaitTime : Int) : Config :=
  { c with Retry := { c.Retry with WaitTime := retryWaitTime } }

def SetDefaultRetryWaitTime (c : Config) : Config :=
  { c with Retry := { c.Retry with WaitTime := checkRetryWaitTime c.Retry.WaitTime } }

def SetRetryMaxWaitTime (c : Config) (retryMaxWaitTime : Int) : Config :=
  { c with Retry := { c.Retry with MaxWaitTime := retryMaxWaitTime } }

def SetDefaultRetryMaxWaitTime (c : Config) : Config :=
  { c with Retry := { c.Retry with MaxWaitTime := checkRetryMaxWaitTime c.Retry.MaxWaitTime } }

def SetLogLevel (c : Config) (logLevel : Int) : Config := { c with LogLevel := logLevel }

/-- The four defaulting calls chained in `UnmarshalJSON`. -/
def setDefaults (c : Config) : Config :=
  c.SetDefaultTimeout.SetDefaultRetryCount.SetDefaultRetryWaitTime.SetDefaultRetryMaxWaitTime

/-- Go `(*Config).UnmarshalJSON`. The decoder `json.Unmarshal` is the parameter
`jsonUnmarshal`: from the bytes and the receiver it gives the receiver after
decoding and the decoder's error. The result is the receiver afterwards and the
returned error. -/
def UnmarshalJSON (jsonUnmarshal : List Nat → Config → Config × Option String)
    (b : List Nat) (c : Config) : Config × Option Error :=
  match jsonUnmarshal b c with
  | (c1, some msg) => (c1, some (Error.decode msg))
  | (c1, none) => (setDefaults c1, Check (setDefaults c1))

def OfuscateQueryParams (c : Config) : GoMap (List String) → GoMap String :=
  ofuscate (ArrToMap c.Ofuscate.QueryParams)

def OfuscateHeaders (c : Config) : GoMap (List String) → GoMap String :=
  ofuscate (ArrToMap c.Ofuscate.Headers)

def OfuscateRequests (doOfuscate : GoMap Any → String → GoMap Any) (c : Config) :
    Any → Except Panic (Any × Option (GoMap Any)) :=
  ofuscateBody doOfuscate c.Ofuscate.Request

def OfuscateResponses (doOfuscate : GoMap Any → String → GoMap Any) (c : Config) :
    Any → Except Panic (Any × Option (GoMap Any)) :=
  ofuscateBody doOfuscate c.Ofuscate.Response

end Config

/-! ## config.go: the interceptors -/

/-- The value of a `zap.Field`. -/
inductive FieldValue where
  | str (s : String)
  | int (n : Int)
  | duration (d : Int)
  | params (m : GoMap String)
  | body (m : Option (GoMap Any))
  | err (msg : String)

/-- One call of `logger.Info`: the message and the fields, in order. -/
structure LogCall where
  msg : String
  fields : List (String × FieldValue)

/-- The parts of a `resty.Request` the interceptors read; `RawPath` is
`RawRequest.URL.Path`. -/
structure Request where
  Method : String
  URL : String
  RawPath : String
  Header : GoMap (List String)
  QueryParam : GoMap (List String)
  Body : Any

/-- The parts of a `resty.Response` the interceptors read; `Body` is the raw
payload. -/
structure Response where
  Request : Request
  StatusCode : Int
  Time : Int
  Header : GoMap (List String)
  Body : List Nat

/-- What a run of an interceptor leaves: the request or response afterwards, the
`logger.Info` calls made, and the returned error (`none` is nil). -/
structure Outcome (R : Type) where
  state : R
  logged : List LogCall
  err : Option Error

/-- Go `OnBeforeRequest(logger, config)` applied to a request. The arguments of
`logger.Info` are evaluated first, so a panic in one of them leaves nothing
logged. The body redactor works on the map the request holds, so the request
afterwards holds what the redactor left. -/
def OnBeforeRequest (doOfuscate : GoMap Any → String → GoMap Any) (config : Config)
    (r : Request) : Except Panic (Outcome Request) :=
  let headers := config.OfuscateHeaders r.Header
  let query := config.OfuscateQueryParams r.QueryParam
  match config.OfuscateRequests doOfuscate r.Body with
  | Except.error p => Except.error p
  | Except.ok (body1, logged) =>
    Except.ok
      { state := { r with Body := body1 }
        logged := [{ msg := ""
                     fields := [("integration", FieldValue.str config.Integration),
                                ("method", FieldValue.str r.Method),
                                ("path", FieldValue.str r.URL),
                                ("headers", FieldValue.params headers),
                                ("query", FieldValue.params query),
                                ("body", FieldValue.body logged)] }]
        err := none }

/-- Go `OnAfterResponse(logger, config)` applied to a response. The decoder
`json.Unmarshal` is the parameter `jsonUnmarshal`: from the payload it gives the
map `m` afterwards (`none` when `m` is still the nil map, as after a payload
that does not decode) and the decoder's error. The redactor gets `m` inside an
interface, which is never the nil interface: a nil `m` arrives as the typed nil
map and is logged as the nil map. -/
def OnAfterResponse (doOfuscate : GoMap Any → String → GoMap Any)
    (jsonUnmarshal : List Nat → Option (GoMap Any) × Option String) (config : Config)
    (r : Response) : Except Panic (Outcome Response) :=
  let decoded := jsonUnmarshal r.Body
  let warned : List LogCall :=
    match decoded.2 with
    | some msg =>
      [{ msg := "couldn\x27t parse body of the response",
         fields := [("error", FieldValue.err msg)] }]
    | none => []
  let headers := config.OfuscateHeaders r.Header
  let query := config.OfuscateQueryParams r.Request.QueryParam
  let m : Any :=
    match decoded.1 with
    | some entries => Any.mapSI entries
    | none => Any.nilMapSI
  match config.OfuscateResponses doOfuscate m with
  | Except.error p => Except.error p
  | Except.ok (_, logged) =>
    Except.ok
      { state := r
        logged := warned ++
          [{ msg := ""
             fields := [("integration", FieldValue.str config.Integration),
                        ("statusCode", FieldValue.int r.StatusCode),
                        ("time", FieldValue.duration r.Time),
                        ("method", FieldValue.str r.Request.Method),
                        ("path", FieldValue.str r.Request.RawPath),
                        ("headers", FieldValue.params headers),
                        ("query", FieldValue.params query),
                        ("body", FieldValue.body logged)] }]
        err := none }

/-- The parts of a `resty.Client` the constructors set; `udBeforeRequest` and
`afterResponse` hold the callbacks registered with `OnBeforeRequest` and
`OnAfterResponse`. -/
structure Client where
  HostURL : String
  Timeout : Int
  RetryCount : Int
  RetryWaitTime : Int
  RetryMaxWaitTime : Int
  udBeforeRequest : List (Request → Except Panic (Outcome Request))
  afterResponse : List (Response → Except Panic (Outcome Response))

/-- Go `strings.TrimRight(s, "/")`: drop every trailing `/`. -/
def TrimRightSlash (s : String) : String :=
  String.mk (s.data.reverse.dropWhile (fun ch => decide (ch = Char.ofNat 47))).reverse

/-- Go `(*resty.Client).SetHostURL(url)`: the host is stored without its
trailing slashes. -/
def Client.SetHostURL (c : Client) (url : String) : Client :=
  { c with HostURL := TrimRightSlash url }

/-- Go `resty.NewWithClient(cl)`: a client with no registered callback. -/
def NewWithClient : Client :=
  { HostURL := "", Timeout := 0, RetryCount := 0, RetryWaitTime := 100 * Millisecond,
    RetryMaxWaitTime := 2000 * Millisecond, udBeforeRequest := [], afterResponse := [] }

/-- Go `NewClient(cl, logger, host, integration)`. -/
def NewClient (doOfuscate : GoMap Any → String → GoMap Any)
    (jsonUnmarshal : List Nat → Option (GoMap Any) × Option String)
    (host integration : String) : Client :=
  let c : Client :=
    { NewWithClient.SetHostURL host with
      Timeout := defaultTimeout, RetryCount := defaultRetryCount,
      RetryWaitTime := defaultRetryWaitTime, RetryMaxWaitTime := defaultRetryMaxWaitTime }
  let config : Config := { Config.zero with Integration := integration }
  { c with
    udBeforeRequest := c.udBeforeRequest ++ [OnBeforeRequest doOfuscate config],
    afterResponse := c.afterResponse ++ [OnAfterResponse doOfuscate jsonUnmarshal config] }

/-- Go `NewClientFromConfig(cl, logger, config)`. It returns a `*resty.Client`
and no error. -/
def NewClientFromConfig (doOfuscate : GoMap Any → String → GoMap Any)
    (jsonUnmarshal : List Nat → Option (GoMap Any) × Option String)
    (config : Config) : Client :=
  let c : Client :=
    { NewWithClient.SetHostURL config.Host with
      Timeout := config.Timeout, RetryCount := config.Retry.Count,
      RetryWaitTime := config.Retry.WaitTime, RetryMaxWaitTime := config.Retry.MaxWaitTime }
  if LevelEnabled config.LogLevel InfoLevel then
    { c with
      udBeforeRequest := c.udBeforeRequest ++ [OnBeforeRequest doOfuscate config],
      afterResponse := c.afterResponse ++ [OnAfterResponse doOfuscate jsonUnmarshal config] }
  else c

/-! ## Auxiliary definitions for the statements -/

instance instDecidableWF {V : Type} (m : GoMap V) : Decidable (GoMap.WF m) := by
  unfold GoMap.WF; infer_instance

/-- What the redactor writes for one entry. -/
def redacted (params : GoMap Any) (k : String) (vals : List String) : String :=
  match GoMap.index params k with
  | some _ => ofuscation
  | none => Join vals ","

/-! ## Concrete inputs -/

/-- The headers of the end-to-end scenario. -/
def scenarioHeaders : GoMap (List String) :=
  [("Authorization", ["Bearer abc"]), ("Accept", ["json"])]

/-- The request of the scenario: body `{"token":"abc"}`. -/
def tokenRequest : Request :=
  { Method := "POST", URL := "/login", RawPath := "/login", Header := [], QueryParam := [],
    Body := Any.mapSI [("token", Any.str "abc")] }

/-- The configuration of the scenario: request-body selectors `["token"]`. -/
def tokenConfig : Config :=
  { Config.zero with
    Host := "http://x", Integration := "svc",
    Ofuscate := { Config.zero.Ofuscate with Request := ["token"] } }

/-- A request whose body is a string. -/
def stringRequest : Request :=
  { Method := "POST", URL := "/login", RawPath := "/login", Header := [], QueryParam := [],
    Body := Any.str "token=abc" }

/-- A configuration without host, at the Info level. -/
def hostlessConfig : Config := { Config.zero with Integration := "svc" }

/-! # Theorems -/

/-! ## Lemmas on maps -/

theorem GoMap.index_assign {V : Type} (m : GoMap V) (k : String) (v : V) (q : String) :
    GoMap.index (GoMap.assign m k v) q = if k = q then some v else GoMap.index m q := by
  induction m with
  | nil => simp [GoMap.assign, GoMap.index]
  | cons e rest ih =>
    obtain ⟨k1, v1⟩ := e
    by_cases h1 : k1 = k
    · subst h1
      by_cases h2 : k1 = q <;> simp [GoMap.assign, GoMap.index, h2]
    · by_cases h2 : k1 = q
      · subst h2
        simp [GoMap.assign, GoMap.index, h1, Ne.symm h1]
      · simp [GoMap.assign, GoMap.index, h1, h2, ih]

theorem GoMap.assign_fresh {V : Type} (m : GoMap V) (k : String) (v : V)
    (hk : k ∉ GoMap.keys m) : GoMap.assign m k v = m ++ [(k, v)] := by
  induction m with
  | nil => rfl
  | cons e rest ih =>
    obtain ⟨k1, v1⟩ := e
    simp only [GoMap.keys, List.map_cons, List.mem_cons, not_or] at hk
    have hne : ¬ k1 = k := fun h => hk.1 h.symm
    simp only [GoMap.assign, hne, if_false, List.cons_append]
    rw [ih (by simpa [GoMap.keys] using hk.2)]

theorem GoMap.index_isSome {V : Type} (m : GoMap V) (q : String) :
    (GoMap.index m q).isSome = true ↔ q ∈ GoMap.keys m := by
  induction m with
  | nil => simp [GoMap.index, GoMap.keys]
  | cons e rest ih =>
    obtain ⟨k1, v1⟩ := e
    by_cases h : k1 = q
    · simp [GoMap.index, GoMap.keys, h]
    · have h2 : ¬ q = k1 := fun e => h e.symm
      simpa [GoMap.index, GoMap.keys, h, h2] using ih

theorem GoMap.index_map {V W : Type} (g : String → V → W) (m : GoMap V) (q : String) :
    GoMap.index (m.map (fun e => (e.1, g e.1 e.2))) q = (GoMap.index m q).map (g q) := by
  induction m with
  | nil => rfl
  | cons e rest ih =>
    obtain ⟨k1, v1⟩ := e
    by_cases h : k1 = q
    · subst h; simp [GoMap.index]
    · simp [GoMap.index, h, ih]

theorem GoMap.index_eq_some_iff {V : Type} (m : GoMap V) (hwf : GoMap.WF m) (q : String)
    (v : V) : GoMap.index m q = some v ↔ (q, v) ∈ m := by
  induction m with
  | nil => simp [GoMap.index]
  | cons e rest ih =>
    obtain ⟨k1, v1⟩ := e
    have hnd : k1 ∉ GoMap.keys rest ∧ GoMap.WF rest := by
      simpa [GoMap.WF, GoMap.keys] using hwf
    by_cases h : k1 = q
    · subst h
      have hnot : (k1, v) ∉ rest := fun hm =>
        hnd.1 (List.mem_map.mpr ⟨(k1, v), hm, rfl⟩)
      simp only [GoMap.index, if_true, Option.some.injEq, List.mem_cons, Prod.mk.injEq,
        true_and]
      constructor
      · intro h; exact Or.inl h.symm
      · rintro (h | h)
        · exact h.symm
        · exact absurd h hnot
    · have h2 : ¬ q = k1 := fun e => h e.symm
      simp [GoMap.index, h, h2, ih hnd.2]

theorem ArrToMap_index_aux (input : List String) (acc : GoMap Any) (q : String) :
    (GoMap.index (input.foldl (fun output v => GoMap.assign output v (Any.int 0)) acc) q).isSome
      = true ↔ ((GoMap.index acc q).isSome = true ∨ q ∈ input) := by
  induction input generalizing acc with
  | nil => simp
  | cons a rest ih =>
    rw [List.foldl_cons, ih, GoMap.index_assign]
    by_cases h : a = q
    · simp [h]
    · have h2 : ¬ q = a := fun e => h e.symm
      simp [h, h2]

/-- Membership in the field set built by `ArrToMap` is membership in the list. -/
theorem ArrToMap_index (input : List String) (q : String) :
    (GoMap.index (ArrToMap input) q).isSome = true ↔ q ∈ input := by
  unfold ArrToMap
  rw [ArrToMap_index_aux]
  simp [GoMap.index]

theorem ofuscateStep_fresh (params : GoMap Any) (output : GoMap String)
    (entry : String × List String) (hk : entry.1 ∉ GoMap.keys output) :
    ofuscateStep params output entry = output ++ [(entry.1, redacted params entry.1 entry.2)] := by
  unfold ofuscateStep redacted
  cases GoMap.index params entry.1 <;> simp [GoMap.assign_fresh _ _ _ hk]

theorem ofuscate_foldl (params : GoMap Any) (input : GoMap (List String))
    (acc : GoMap String) (hwf : GoMap.WF input)
    (hdis : ∀ k, k ∈ GoMap.keys input → k ∉ GoMap.keys acc) :
    input.foldl (ofuscateStep params) acc
      = acc ++ input.map (fun e => (e.1, redacted params e.1 e.2)) := by
  induction input generalizing acc with
  | nil => simp
  | cons e rest ih =>
    have hnd : e.1 ∉ GoMap.keys rest ∧ GoMap.WF rest := by
      simpa [GoMap.WF, GoMap.keys] using hwf
    have hfresh : e.1 ∉ GoMap.keys acc := hdis e.1 (by simp [GoMap.keys])
    rw [List.foldl_cons, ofuscateStep_fresh _ _ _ hfresh, ih _ hnd.2]
    · simp
    · intro k hk hmem
      have hk2 : k ∈ GoMap.keys (e :: rest) := by
        simp only [GoMap.keys, List.map_cons, List.mem_cons]
        exact Or.inr hk
      simp only [GoMap.keys, List.map_append, List.map_cons, List.map_nil, List.mem_append,
        List.mem_singleton] at hmem
      rcases hmem with hmem | hmem
      · exact hdis k hk2 hmem
      · exact hnd.1 (hmem ▸ hk)

/-- On a well-formed listing the redactor rewrites every entry where it stands. -/
theorem ofuscate_eq_map (params : GoMap Any) (input : GoMap (List String))
    (hwf : GoMap.WF input) :
    ofuscate params input = input.map (fun e => (e.1, redacted params e.1 e.2)) := by
  unfold ofuscate
  rw [ofuscate_foldl params input [] hwf (by simp [GoMap.keys])]
  simp

theorem ofuscate_keys (params : GoMap Any) (input : GoMap (List String))
    (hwf : GoMap.WF input) : GoMap.keys (ofuscate params input) = GoMap.keys input := by
  rw [ofuscate_eq_map params input hwf]
  simp [GoMap.keys, Function.comp_def]

theorem ofuscate_index (params : GoMap Any) (input : GoMap (List String))
    (hwf : GoMap.WF input) (q : String) :
    GoMap.index (ofuscate params input) q = (GoMap.index input q).map (redacted params q) := by
  rw [ofuscate_eq_map params input hwf]
  exact GoMap.index_map (redacted params) input q

theorem GoMap.index_perm {V : Type} (m1 m2 : GoMap V) (hperm : m1.Perm m2)
    (hwf : GoMap.WF m1) (q : String) : GoMap.index m1 q = GoMap.index m2 q := by
  have hwf2 : GoMap.WF m2 := by
    unfold GoMap.WF GoMap.keys at *
    exact (hperm.map Prod.fst).nodup_iff.mp hwf
  apply Option.ext
  intro v
  simp only [Option.mem_def]
  rw [GoMap.index_eq_some_iff m1 hwf, GoMap.index_eq_some_iff m2 hwf2]
  exact hperm.mem_iff

theorem redacted_redacted (params : GoMap Any) (k : String) (vals : List String) :
    redacted params k [redacted params k vals] = redacted params k vals := by
  unfold redacted
  cases GoMap.index params k with
  | none =>
    show Join [Join vals ","] "," = Join vals ","
    rfl
  | some v => rfl

/-- C1: for every list of configured names and every input multimap (a listing
with every key once, in any order), `ofuscate (ArrToMap names)` returns a map
with exactly the input's keys, each once; a key that is one of the names maps to
the marker "XXX", every other key to its values joined with "," in order. -/
theorem ofuscate_arrToMap_spec (names : List String) (input : GoMap (List String))
    (hwf : GoMap.WF input) :
    GoMap.WF (ofuscate (ArrToMap names) input) ∧
    (∀ k, k ∈ GoMap.keys (ofuscate (ArrToMap names) input) ↔ k ∈ GoMap.keys input) ∧
    (∀ k vals, GoMap.index input k = some vals →
      GoMap.index (ofuscate (ArrToMap names) input) k
        = some (if k ∈ names then "XXX" else ",".intercalate vals)) := by
  have hkeys := ofuscate_keys (ArrToMap names) input hwf
  refine ⟨?_, ?_, ?_⟩
  · unfold GoMap.WF
    rw [hkeys]
    exact hwf
  · intro k
    rw [hkeys]
  · intro k vals hk
    rw [ofuscate_index (ArrToMap names) input hwf k, hk]
    have hmem := ArrToMap_index names k
    simp only [Option.map_some', Option.some.injEq]
    unfold redacted
    by_cases hin : k ∈ names
    · have hsome := hmem.mpr hin
      cases hidx : GoMap.index (ArrToMap names) k with
      | none => simp [hidx] at hsome
      | some v => simp [hin, ofuscation]
    · cases hidx : GoMap.index (ArrToMap names) k with
      | none => simp [hin, Join]
      | some v => exact absurd (hmem.mp (by simp [hidx])) hin

/-- C1 at the end-to-end scenario: `Authorization` is redacted and `Accept` is
passed through. -/
theorem ofuscate_arrToMap_spec_witness :
    GoMap.WF scenarioHeaders ∧
    GoMap.index (ofuscate (ArrToMap ["Authorization"]) scenarioHeaders) "Authorization"
      = some "XXX" ∧
    GoMap.index (ofuscate (ArrToMap ["Authorization"]) scenarioHeaders) "Accept"
      = some "json" ∧
    ofuscate (ArrToMap ["Authorization"]) scenarioHeaders
      = [("Authorization", "XXX"), ("Accept", "json")] :=
  ⟨by decide,
   (ofuscate_arrToMap_spec ["Authorization"] scenarioHeaders (by decide)).2.2
      "Authorization" ["Bearer abc"] (by decide),
   (ofuscate_arrToMap_spec ["Authorization"] scenarioHeaders (by decide)).2.2
      "Accept" ["json"] (by decide),
   by decide⟩

/-- C10: the header/query redactor is idempotent. For every field set and every
input multimap, feeding the redactor its own output, every string as a
one-element value list, gives that output again: as the same listing when the
entries are visited in the same order, and as the same map (equal at every key)
for every order `again` of the entries. -/
theorem ofuscate_idempotent (params : GoMap Any) (input : GoMap (List String))
    (hwf : GoMap.WF input) :
    ofuscate params ((ofuscate params input).map (fun e => (e.1, [e.2])))
      = ofuscate params input ∧
    ∀ again : GoMap (List String),
      again.Perm ((ofuscate params input).map (fun e => (e.1, [e.2]))) →
      ∀ k, GoMap.index (ofuscate params again) k = GoMap.index (ofuscate params input) k := by
  have hkeys := ofuscate_keys params input hwf
  have hwfLift : GoMap.WF ((ofuscate params input).map (fun e => (e.1, [e.2]))) := by
    have : GoMap.keys ((ofuscate params input).map (fun e => (e.1, [e.2])))
        = GoMap.keys input := by
      rw [← hkeys]
      simp [GoMap.keys, Function.comp_def]
    unfold GoMap.WF
    rw [this]
    exact hwf
  have hidx : ∀ k, GoMap.index (ofuscate params
        ((ofuscate params input).map (fun e => (e.1, [e.2])))) k
      = GoMap.index (ofuscate params input) k := by
    intro k
    rw [ofuscate_index params _ hwfLift k,
      GoMap.index_map (fun _ s => [s]) (ofuscate params input) k,
      ofuscate_index params input hwf k]
    cases GoMap.index input k <;> simp [redacted_redacted]
  refine ⟨?_, ?_⟩
  · rw [ofuscate_eq_map params _ hwfLift, ofuscate_eq_map params input hwf]
    simp [redacted_redacted, Function.comp_def]
  · intro again hperm k
    have hwfAgain : GoMap.WF again := by
      unfold GoMap.WF GoMap.keys at *
      exact (hperm.map Prod.fst).nodup_iff.mpr hwfLift
    rw [ofuscate_index params again hwfAgain k, GoMap.index_perm again _ hperm hwfAgain k,
      ← ofuscate_index params _ hwfLift k]
    exact hidx k

/-- C10 at the end-to-end scenario, with the output visited in the other order. -/
theorem ofuscate_idempotent_witness :
    GoMap.WF scenarioHeaders ∧
    ofuscate (ArrToMap ["Authorization"]) [("Authorization", ["XXX"]), ("Accept", ["json"])]
      = ofuscate (ArrToMap ["Authorization"]) scenarioHeaders ∧
    ∀ k, GoMap.index (ofuscate (ArrToMap ["Authorization"])
          [("Accept", ["json"]), ("Authorization", ["XXX"])]) k
      = GoMap.index (ofuscate (ArrToMap ["Authorization"]) scenarioHeaders) k :=
  ⟨by decide,
   (ofuscate_idempotent (ArrToMap ["Authorization"]) scenarioHeaders (by decide)).1,
   (ofuscate_idempotent (ArrToMap ["Authorization"]) scenarioHeaders (by decide)).2
      [("Accept", ["json"]), ("Authorization", ["XXX"])]
      (List.Perm.swap ("Authorization", ["XXX"]) ("Accept", ["json"]) [])⟩

/-! ## Validation -/

/-- Trimming leaves nothing exactly when every character is white space. -/
theorem TrimSpace_eq_empty_iff (s : String) :
    TrimSpace s = "" ↔ ∀ c ∈ s.data, isSpace c = true := by
  unfold TrimSpace
  have hmk : ∀ l : List Char, String.mk l = "" ↔ l = [] := by
    intro l
    constructor
    · intro h
      have := congrArg String.data h
      simpa using this
    · intro h
      subst h
      rfl
  rw [hmk, List.reverse_eq_nil_iff, List.dropWhile_eq_nil_iff]
  constructor
  · intro h
    have hnil : s.data.dropWhile isSpace = [] := by
      cases hd : s.data.dropWhile isSpace with
      | nil => rfl
      | cons a rest =>
        have h1 : isSpace a = true := h a (by simp [hd])
        have h2 := List.head_dropWhile_not isSpace s.data (by simp [hd])
        simp [hd] at h2
        simp [h1] at h2
    exact List.dropWhile_eq_nil_iff.mp hnil
  · intro h
    have hnil : s.data.dropWhile isSpace = [] := List.dropWhile_eq_nil_iff.mpr h
    simp [hnil]

/-- C4: `Check` returns `ErrHostNeeded` exactly when the host is empty after
trimming; `ErrIntegrationNeeded` exactly when the host is not but the integration
is; and no error exactly when neither is. -/
theorem check_spec (c : Config) :
    (c.Check = some Error.ErrHostNeeded ↔ TrimSpace c.Host = "") ∧
    (c.Check = some Error.ErrIntegrationNeeded ↔
      TrimSpace c.Host ≠ "" ∧ TrimSpace c.Integration = "") ∧
    (c.Check = none ↔ TrimSpace c.Host ≠ "" ∧ TrimSpace c.Integration ≠ "") := by
  unfold Config.Check
  by_cases hh : TrimSpace c.Host = "" <;> by_cases hi : TrimSpace c.Integration = "" <;>
    simp [hh, hi]

/-! ## Range clamping and defaulting -/

/-- C6: `CheckValueInRange min max bydefault v` is `v` when `min ≤ v ≤ max` and
`bydefault` otherwise, in particular at `min - 1`, `min`, `max` and `max + 1`;
each `SetDefault...` keeps an in-range value of its setting and puts the
setting's default in place of any other. -/
theorem checkValueInRange_spec (min max bydefault v : Int) (c : Config) :
    CheckValueInRange min max bydefault v = (if min ≤ v ∧ v ≤ max then v else bydefault) ∧
    CheckValueInRange min max bydefault (min - 1) = bydefault ∧
    CheckValueInRange min max bydefault (max + 1) = bydefault ∧
    CheckValueInRange min max bydefault min = (if min ≤ max then min else bydefault) ∧
    CheckValueInRange min max bydefault max = (if min ≤ max then max else bydefault) ∧
    c.SetDefaultTimeout.Timeout
      = (if minTimeout ≤ c.Timeout ∧ c.Timeout ≤ maxTimeout then c.Timeout
         else defaultTimeout) ∧
    c.SetDefaultRetryCount.Retry.Count
      = (if minRetryCount ≤ c.Retry.Count ∧ c.Retry.Count ≤ maxRetryCount then c.Retry.Count
         else defaultRetryCount) ∧
    c.SetDefaultRetryWaitTime.Retry.WaitTime
      = (if minRetryWaitTime ≤ c.Retry.WaitTime ∧ c.Retry.WaitTime ≤ maxRetryWaitTime
         then c.Retry.WaitTime else defaultRetryWaitTime) ∧
    c.SetDefaultRetryMaxWaitTime.Retry.MaxWaitTime
      = (if minRetryMaxWaitTime ≤ c.Retry.MaxWaitTime ∧
            c.Retry.MaxWaitTime ≤ maxRetryMaxWaitTime
         then c.Retry.MaxWaitTime else defaultRetryMaxWaitTime) := by
  have key : ∀ lo hi d x : Int,
      CheckValueInRange lo hi d x = (if lo ≤ x ∧ x ≤ hi then x else d) := by
    intro lo hi d x
    unfold CheckValueInRange
    by_cases h1 : x < lo
    · have : ¬ (lo ≤ x ∧ x ≤ hi) := fun h => by omega
      simp [h1, this]
    · by_cases h2 : x > hi
      · have : ¬ (lo ≤ x ∧ x ≤ hi) := fun h => by omega
        simp [h2, this]
      · have : lo ≤ x ∧ x ≤ hi := ⟨by omega, by omega⟩
        simp [h1, h2, this]
  refine ⟨key _ _ _ _, ?_, ?_, ?_, ?_, key _ _ _ _, key _ _ _ _, key _ _ _ _, key _ _ _ _⟩
  · rw [key]; simp
  · rw [key]; simp
  · rw [key]; simp
  · rw [key]; simp

/-- C7 as stated fails for the retry count: on the zero configuration
`SetDefaultRetryCount` leaves the count 0, not 3. -/
theorem setDefaultRetryCount_zero_stays :
    Config.zero.Retry.Count = 0 ∧
    Config.zero.SetDefaultRetryCount.Retry.Count = 0 ∧
    Config.zero.SetDefaultRetryCount.Retry.Count ≠ defaultRetryCount := by
  decide

/-- C7 amended: on a configuration whose timeout, retry wait time or retry max
wait time is zero, the defaulting operation of that setting sets it to 10s, 1s
and 2s; a zero retry count lies in its range [0, 5] and stays zero. -/
theorem setDefault_of_zero (c : Config) :
    (c.Timeout = 0 → c.SetDefaultTimeout.Timeout = 10 * Second) ∧
    (c.Retry.WaitTime = 0 → c.SetDefaultRetryWaitTime.Retry.WaitTime = 1 * Second) ∧
    (c.Retry.MaxWaitTime = 0 →
      c.SetDefaultRetryMaxWaitTime.Retry.MaxWaitTime = 2 * Second) ∧
    (c.Retry.Count = 0 → c.SetDefaultRetryCount.Retry.Count = 0) := by
  refine ⟨?_, ?_, ?_, ?_⟩ <;> intro h
  · simp [Config.SetDefaultTimeout, h]; decide
  · simp [Config.SetDefaultRetryWaitTime, h]; decide
  · simp [Config.SetDefaultRetryMaxWaitTime, h]; decide
  · simp [Config.SetDefaultRetryCount, h]; decide

/-- C7 amended, at the zero configuration. -/
theorem setDefault_of_zero_witness :
    Config.zero.SetDefaultTimeout.Timeout = 10 * Second ∧
    Config.zero.SetDefaultRetryWaitTime.Retry.WaitTime = 1 * Second ∧
    Config.zero.SetDefaultRetryMaxWaitTime.Retry.MaxWaitTime = 2 * Second ∧
    Config.zero.SetDefaultRetryCount.Retry.Count = 0 :=
  ⟨(setDefault_of_zero Config.zero).1 rfl, (setDefault_of_zero Config.zero).2.1 rfl,
   (setDefault_of_zero Config.zero).2.2.1 rfl, (setDefault_of_zero Config.zero).2.2.2 rfl⟩

theorem checkValueInRange_idem (min max bydefault v : Int)
    (hd : min ≤ bydefault ∧ bydefault ≤ max) :
    CheckValueInRange min max bydefault (CheckValueInRange min max bydefault v)
      = CheckValueInRange min max bydefault v := by
  unfold CheckValueInRange
  by_cases h : v < min ∨ v > max
  · have : ¬ (bydefault < min ∨ bydefault > max) := fun h => by omega
    simp [h, this]
  · simp [h]

/-- C9: defaulting is idempotent. Applying the four `SetDefault...` operations
to the result of applying them once changes nothing, for the chain and for each
operation alone; every policy default lies within its own bounds. -/
theorem setDefaults_idempotent (c : Config) :
    c.setDefaults.setDefaults = c.setDefaults ∧
    c.SetDefaultTimeout.SetDefaultTimeout = c.SetDefaultTimeout ∧
    c.SetDefaultRetryCount.SetDefaultRetryCount = c.SetDefaultRetryCount ∧
    c.SetDefaultRetryWaitTime.SetDefaultRetryWaitTime = c.SetDefaultRetryWaitTime ∧
    c.SetDefaultRetryMaxWaitTime.SetDefaultRetryMaxWaitTime = c.SetDefaultRetryMaxWaitTime ∧
    (minTimeout ≤ defaultTimeout ∧ defaultTimeout ≤ maxTimeout) ∧
    (minRetryCount ≤ defaultRetryCount ∧ defaultRetryCount ≤ maxRetryCount) ∧
    (minRetryWaitTime ≤ defaultRetryWaitTime ∧ defaultRetryWaitTime ≤ maxRetryWaitTime) ∧
    (minRetryMaxWaitTime ≤ defaultRetryMaxWaitTime ∧
      defaultRetryMaxWaitTime ≤ maxRetryMaxWaitTime) := by
  have b1 : minTimeout ≤ defaultTimeout ∧ defaultTimeout ≤ maxTimeout := by decide
  have b2 : minRetryCount ≤ defaultRetryCount ∧ defaultRetryCount ≤ maxRetryCount := by decide
  have b3 : minRetryWaitTime ≤ defaultRetryWaitTime ∧
      defaultRetryWaitTime ≤ maxRetryWaitTime := by decide
  have b4 : minRetryMaxWaitTime ≤ defaultRetryMaxWaitTime ∧
      defaultRetryMaxWaitTime ≤ maxRetryMaxWaitTime := by decide
  have i1 := fun v => checkValueInRange_idem minTimeout maxTimeout defaultTimeout v b1
  have i2 := fun v => checkValueInRange_idem minRetryCount maxRetryCount defaultRetryCount v b2
  have i3 := fun v =>
    checkValueInRange_idem minRetryWaitTime maxRetryWaitTime defaultRetryWaitTime v b3
  have i4 := fun v =>
    checkValueInRange_idem minRetryMaxWaitTime maxRetryMaxWaitTime defaultRetryMaxWaitTime v b4
  refine ⟨?_, ?_, ?_, ?_, ?_, b1, b2, b3, b4⟩
  · simp [Config.setDefaults, Config.SetDefaultTimeout, Config.SetDefaultRetryCount,
      Config.SetDefaultRetryWaitTime, Config.SetDefaultRetryMaxWaitTime, checkTimeout,
      checkRetryCount, checkRetryWaitTime, checkRetryMaxWaitTime, i1, i2, i3, i4]
  · simp [Config.SetDefaultTimeout, checkTimeout, i1]
  · simp [Config.SetDefaultRetryCount, checkRetryCount, i2]
  · simp [Config.SetDefaultRetryWaitTime, checkRetryWaitTime, i3]
  · simp [Config.SetDefaultRetryMaxWaitTime, checkRetryMaxWaitTime, i4]

/-! ## The body redactor and the request interceptor -/

/-- C8: for every list of selectors (and whatever `DoOfuscate` does), the body
redactor applied to the nil body returns nil and does not panic. -/
theorem ofuscateBody_nil (doOfuscate : GoMap Any → String → GoMap Any)
    (params : List String) :
    ofuscateBody doOfuscate params Any.nil = Except.ok (Any.nil, none) := rfl

/-- On a body that is a string-keyed mapping the request interceptor returns nil,
and the request afterwards holds the redacted map, the very one that is logged:
whatever `DoOfuscate` writes for the log, it writes into the request. -/
theorem onBeforeRequest_map_body (doOfuscate : GoMap Any → String → GoMap Any)
    (config : Config) (r : Request) (m : GoMap Any) (hbody : r.Body = Any.mapSI m) :
    ∃ o, OnBeforeRequest doOfuscate config r = Except.ok o ∧ o.err = none ∧
      o.state.Body = Any.mapSI (config.Ofuscate.Request.foldl doOfuscate m) ∧
      o.logged = [{ msg := "", fields :=
        [("integration", FieldValue.str config.Integration),
         ("method", FieldValue.str r.Method),
         ("path", FieldValue.str r.URL),
         ("headers", FieldValue.params (ofuscate (ArrToMap config.Ofuscate.Headers) r.Header)),
         ("query",
           FieldValue.params (ofuscate (ArrToMap config.Ofuscate.QueryParams) r.QueryParam)),
         ("body",
           FieldValue.body (some (config.Ofuscate.Request.foldl doOfuscate m)))] }] := by
  unfold OnBeforeRequest Config.OfuscateRequests ofuscateBody
  rw [hbody]
  exact ⟨_, rfl, rfl, rfl, rfl⟩

/-- On an absent body the request interceptor returns nil and leaves the request
as it was. -/
theorem onBeforeRequest_nil_body (doOfuscate : GoMap Any → String → GoMap Any)
    (config : Config) (r : Request) (hbody : r.Body = Any.nil) :
    ∃ o, OnBeforeRequest doOfuscate config r = Except.ok o ∧ o.err = none ∧
      o.state.Body = Any.nil := by
  simp [OnBeforeRequest, Config.OfuscateRequests, ofuscateBody, hbody]

/-- C2 fails on the code: with body `{"token":"abc"}` and selectors `["token"]`
the interceptor returns nil, and the body the request holds afterwards is
`{"token":"XXX"}`, not the body it held before. -/
theorem onBeforeRequest_rewrites_request_body :
    ∃ o, OnBeforeRequest DoOfuscate tokenConfig tokenRequest = Except.ok o ∧
      o.err = none ∧
      tokenRequest.Body = Any.mapSI [("token", Any.str "abc")] ∧
      o.state.Body = Any.mapSI [("token", Any.str "XXX")] ∧
      o.state.Body ≠ tokenRequest.Body := by
  refine ⟨_, rfl, rfl, rfl, rfl, ?_⟩
  intro h
  have h1 : Any.mapSI [("token", Any.str "XXX")] = Any.mapSI [("token", Any.str "abc")] := h
  simp at h1

/-- C3 fails on the code: on a request whose body is a string (likewise bytes, a
sequence or a struct) the interceptor panics at the type assertion, for every
redaction policy; it does not return. -/
theorem onBeforeRequest_panics_on_string_body
    (doOfuscate : GoMap Any → String → GoMap Any) (config : Config) :
    OnBeforeRequest doOfuscate config stringRequest
      = Except.error (Panic.typeAssertion "map[string]interface \x7b\x7d") ∧
    (∀ r : Request, ∀ b : List Nat, r.Body = Any.bytes b →
      OnBeforeRequest doOfuscate config r
        = Except.error (Panic.typeAssertion "map[string]interface \x7b\x7d")) ∧
    (∀ r : Request, ∀ xs : List Any, r.Body = Any.slice xs →
      OnBeforeRequest doOfuscate config r
        = Except.error (Panic.typeAssertion "map[string]interface \x7b\x7d")) ∧
    (∀ r : Request, ∀ n fs, r.Body = Any.struct n fs →
      OnBeforeRequest doOfuscate config r
        = Except.error (Panic.typeAssertion "map[string]interface \x7b\x7d")) := by
  refine ⟨rfl, ?_, ?_, ?_⟩ <;> intros <;>
    simp_all [OnBeforeRequest, Config.OfuscateRequests, ofuscateBody]

/-! ## Client construction -/

theorem setDefaults_host (c : Config) :
    c.setDefaults.Host = c.Host ∧ c.setDefaults.Integration = c.Integration := ⟨rfl, rfl⟩

/-- C5 as stated fails: from a configuration with an empty host
`NewClientFromConfig` returns a client, with the request and the response
interceptor registered. -/
theorem newClientFromConfig_hostless :
    TrimSpace hostlessConfig.Host = "" ∧
    (NewClientFromConfig DoOfuscate (fun _ => (none, none)) hostlessConfig).udBeforeRequest.length
      = 1 ∧
    (NewClientFromConfig DoOfuscate (fun _ => (none, none)) hostlessConfig).afterResponse.length
      = 1 := by
  decide

/-- C5 amended: a decoded configuration whose host or integration is empty after
trimming is refused by `UnmarshalJSON` with the respective error, `ErrHostNeeded`
when the host is empty and `ErrIntegrationNeeded` otherwise. `NewClientFromConfig`
validates nothing: for every configuration it registers one request and one
response interceptor when the log level is Info or lower, and none otherwise. -/
theorem unmarshalJSON_rejects_newClientFromConfig_accepts
    (jsonUnmarshal : List Nat → Config → Config × Option String) (b : List Nat)
    (c c1 : Config) (hdec : jsonUnmarshal b c = (c1, none))
    (hempty : TrimSpace c1.Host = "" ∨ TrimSpace c1.Integration = "") :
    (Config.UnmarshalJSON jsonUnmarshal b c).2
      = some (if TrimSpace c1.Host = "" then Error.ErrHostNeeded
              else Error.ErrIntegrationNeeded) ∧
    ∀ (doOfuscate : GoMap Any → String → GoMap Any)
      (decodeBody : List Nat → Option (GoMap Any) × Option String) (config : Config),
      (NewClientFromConfig doOfuscate decodeBody config).udBeforeRequest.length
        = (if config.LogLevel ≤ InfoLevel then 1 else 0) ∧
      (NewClientFromConfig doOfuscate decodeBody config).afterResponse.length
        = (if config.LogLevel ≤ InfoLevel then 1 else 0) := by
  constructor
  · unfold Config.UnmarshalJSON
    rw [hdec]
    simp only [Config.Check, (setDefaults_host c1).1, (setDefaults_host c1).2]
    by_cases hh : TrimSpace c1.Host = ""
    · simp [hh]
    · have hi : TrimSpace c1.Integration = "" := hempty.resolve_left hh
      simp [hh, hi]
  · intro doOfuscate decodeBody config
    unfold NewClientFromConfig LevelEnabled
    by_cases hl : config.LogLevel ≤ InfoLevel
    · have : InfoLevel ≥ config.LogLevel := hl
      simp [this, hl, NewWithClient, Client.SetHostURL]
    · have : ¬ InfoLevel ≥ config.LogLevel := hl
      simp [this, hl, NewWithClient, Client.SetHostURL]

/-- C5 amended, at a decoder that yields the configuration without host. -/
theorem unmarshalJSON_rejects_newClientFromConfig_accepts_witness :
    (Config.UnmarshalJSON (fun _ _ => (hostlessConfig, none)) [] Config.zero).2
      = some Error.ErrHostNeeded ∧
    (NewClientFromConfig DoOfuscate (fun _ => (none, none))
      (hostlessConfig.SetLogLevel 1)).udBeforeRequest.length = 0 :=
  ⟨(unmarshalJSON_rejects_newClientFromConfig_accepts (fun _ _ => (hostlessConfig, none)) []
      Config.zero hostlessConfig rfl (Or.inl (by decide))).1,
   ((unmarshalJSON_rejects_newClientFromConfig_accepts (fun _ _ => (hostlessConfig, none)) []
      Config.zero hostlessConfig rfl (Or.inl (by decide))).2 DoOfuscate
      (fun _ => (none, none)) (hostlessConfig.SetLogLevel 1)).1⟩

end HttpClient
